import Mathlib

/-!
Verification development for `kbo.py`, a scraper for the Belgian business
registry (KBO).  The file embeds the repository's pure logic in Lean:

* `normalize_kbo` — identifier normalization (`normalize_kbo` in the source);
* the field extraction of `extract_from_detail_page` / `find_one`, where the
  three fixed regular expressions of the source are embedded as executable
  matchers over `List Char` (`phonePat1At`, `phonePat2At`, `emailPatAt`,
  `websitePatAt`) together with the leftmost-position search of `re.search`
  (`searchAt`) and the first-pattern-wins loop (`find_one`);
* the heading-based company-name pick (`pickName` / `extract_name`);
* the batch loop of `main` (`runBatch`, `normalizeAll`, `run_main`), with the
  browser driver abstracted as an oracle `String → ScrapeResult`.

Character-class notes.  Python's `re` module works on Unicode text: the class
`\d` (hence `\D`) matches every Unicode decimal digit, `\s` matches Unicode
whitespace, and `re.IGNORECASE` folds case beyond ASCII.  The embedding keeps
a faithful fragment of that behaviour large enough for all inputs appearing
below: `isPyDigit` admits the ASCII digits together with the Arabic-Indic
digits U+0660–U+0669 (a representative non-ASCII slice of the `Nd` category),
`isSpacePy` admits the six ASCII whitespace characters together with the
no-break space U+00A0, and `toLowerPy` lowers ASCII letters together with the
letter É, the only non-ASCII letter occurring in the source's patterns.
-/

/-- Fragment of Python's `\d` class (Unicode decimal digits): ASCII digits
together with the Arabic-Indic digits U+0660–U+0669. -/
def isPyDigit (c : Char) : Bool :=
  c.isDigit || (0x660 ≤ c.toNat && c.toNat ≤ 0x669)

/-- Fragment of Python's `\s` class (Unicode whitespace): the six ASCII
whitespace characters together with the no-break space U+00A0. -/
def isSpacePy (c : Char) : Bool :=
  c = ' ' || c = '\t' || c = '\n' || c = '\r' || c = '\x0b' || c = '\x0c' || c = '\xa0'

/-- Case folding used by `re.IGNORECASE`: ASCII letters are lowered, and so is
the letter É, the only non-ASCII letter occurring in the source's patterns. -/
def toLowerPy (c : Char) : Char :=
  if c = 'É' then 'é' else c.toLower

/-- Remove trailing whitespace (second half of Python's `str.strip`). -/
def dropTrailing (l : List Char) : List Char :=
  (l.reverse.dropWhile isSpacePy).reverse

/-- Python's `str.strip()` on a list of characters. -/
def pyStrip (l : List Char) : List Char :=
  dropTrailing (l.dropWhile isSpacePy)

/-- Python's `str.strip()` on a `String`. -/
def pyStripStr (s : String) : String :=
  String.mk (pyStrip s.data)

/-- Source line `digits = re.sub(r"\D+", "", str(n))`: keep only the digit
characters of the input. -/
def kboDigits (n : String) : List Char :=
  n.data.filter isPyDigit

/-- Source lines `if len(digits) == 9: digits = "0" + digits`: pad a
nine-digit result with a leading zero. -/
def kboPadded (n : String) : List Char :=
  if (kboDigits n).length = 9 then '0' :: kboDigits n else kboDigits n

/-- Embedding of `normalize_kbo`: strip non-digits, pad a nine-digit result
with a leading `0`, and require exactly ten digits; otherwise raise
`ValueError(f"Invalid Belgian enterprise number: {n}")`, modelled as an
`Except.error` carrying the formatted message. -/
def normalize_kbo (n : String) : Except String String :=
  if (kboPadded n).length = 10 then Except.ok (String.mk (kboPadded n))
  else Except.error ("Invalid Belgian enterprise number: " ++ n)

/-- Case-insensitive literal matcher: `matchLitCI lit cs` consumes a prefix of
`cs` whose `toLowerPy` image is `lit`, returning the consumed original
characters and the remaining input.  This embeds a literal run inside one of
the source's regular expressions under `re.IGNORECASE`. -/
def matchLitCI : List Char → List Char → Option (List Char × List Char)
  | [], cs => some ([], cs)
  | _ :: _, [] => none
  | l :: ls, c :: cs =>
    if toLowerPy c = l then (matchLitCI ls cs).map (fun p => (c :: p.1, p.2)) else none

/-- Embedding of the separator run `\s*[:\-]\s*` shared by all three value
patterns: optional whitespace, one of `:` or `-`, optional whitespace.  The
whitespace runs are greedy; since no whitespace character can satisfy the
following obligation, maximal munch is exact here. -/
def afterSep (cs : List Char) : Option (List Char) :=
  match cs.dropWhile isSpacePy with
  | [] => none
  | c :: rest => if c = ':' || c = '-' then some (rest.dropWhile isSpacePy) else none

/-- First character admitted by the phone value class `[+()\d]`. -/
def isPhoneStart (c : Char) : Bool :=
  c = '+' || c = '(' || c = ')' || isPyDigit c

/-- Complement of the class `[\n\r]`, used by the phone value run `[^\n\r]*`. -/
def notNL (c : Char) : Bool :=
  !(c = '\n' || c = '\r')

/-- Embedding of the phone capture `([+()\d][^\n\r]*)`: one character of the
start class followed by the greedy rest of the line. -/
def phoneValue : List Char → Option (List Char)
  | [] => none
  | c :: rest => if isPhoneStart c then some (c :: rest.takeWhile notNL) else none

/-- Embedding of the alternative `Tel\.?`: the literal `Tel` (case folded)
with an optional trailing dot.  Consuming the dot when present is exact, since
a leftover dot can never satisfy the separator class `[:\-]`. -/
def telLabel (cs : List Char) : Option (List Char) :=
  match matchLitCI "tel".data cs with
  | some (_, '.' :: r) => some r
  | some (_, r) => some r
  | none => none

/-- Match attempt, anchored at the start of `cs`, of the source's first phone
regex `(?:Tel\.?|Téléphone)\s*[:\-]\s*([+()\d][^\n\r]*)`; returns the capture
group. -/
def phonePat1At (cs : List Char) : Option (List Char) :=
  match telLabel cs >>= afterSep >>= phoneValue with
  | some v => some v
  | none => ((matchLitCI "téléphone".data cs).map Prod.snd) >>= afterSep >>= phoneValue

/-- Match attempt, anchored at the start of `cs`, of the source's second phone
regex `(?:Telefoon)\s*[:\-]\s*([+()\d][^\n\r]*)`; returns the capture group. -/
def phonePat2At (cs : List Char) : Option (List Char) :=
  ((matchLitCI "telefoon".data cs).map Prod.snd) >>= afterSep >>= phoneValue

/-- Embedding of the label run `E-?mail` (case folded): the greedy optional
dash is exact, since `mail` can never match starting at a leftover dash. -/
def emailLabel (cs : List Char) : Option (List Char) :=
  match matchLitCI "e-mail".data cs with
  | some p => some p.2
  | none => (matchLitCI "email".data cs).map Prod.snd

/-- Embedding of the email capture `([^\s\n\r]+@[^\s\n\r]+)`.  With greedy
backtracking the match, when it exists, is exactly the maximal whitespace-free
run, and it exists precisely when that run carries an `@` that is neither its
first nor its last character. -/
def emailValue (cs : List Char) : Option (List Char) :=
  let run := cs.takeWhile (fun c => !isSpacePy c)
  if ((run.drop 1).dropLast).contains '@' then some run else none

/-- Match attempt, anchored at the start of `cs`, of the source's email regex
`(?:E-?mail)\s*[:\-]\s*([^\s\n\r]+@[^\s\n\r]+)`; returns the capture group. -/
def emailPatAt (cs : List Char) : Option (List Char) :=
  emailLabel cs >>= afterSep >>= emailValue

/-- Embedding of the label alternation `Website|Site web` (case folded). -/
def siteLabel (cs : List Char) : Option (List Char) :=
  match matchLitCI "website".data cs with
  | some p => some p.2
  | none => (matchLitCI "site web".data cs).map Prod.snd

/-- The optional `s` of `https?` (case folded): consume it when present.
Greedy consumption is exact, since `://` can never match starting at a
leftover `s`. -/
def httpsOpt (r : List Char) : List Char × List Char :=
  match r with
  | [] => ([], [])
  | c :: t => if toLowerPy c = 's' then ([c], t) else ([], c :: t)

/-- Embedding of the first website value alternative `https?://[^\s\n\r]+`:
the scheme (case folded, optional `s`) followed by a non-empty maximal
whitespace-free run.  The capture keeps the original characters. -/
def httpValue (cs : List Char) : Option (List Char) :=
  match matchLitCI "http".data cs with
  | none => none
  | some (a, r1) =>
    match matchLitCI "://".data (httpsOpt r1).2 with
    | none => none
    | some (d, r3) =>
      if (r3.takeWhile (fun c => !isSpacePy c)).isEmpty then none
      else some (a ++ (httpsOpt r1).1 ++ d ++ r3.takeWhile (fun c => !isSpacePy c))

/-- Embedding of the second website value alternative `www\.[^\s\n\r]+`. -/
def wwwValue (cs : List Char) : Option (List Char) :=
  match matchLitCI "www.".data cs with
  | none => none
  | some (a, r) =>
    let run := r.takeWhile (fun c => !isSpacePy c)
    if run.isEmpty then none else some (a ++ run)

/-- Embedding of the website value alternation
`(https?://[^\s\n\r]+|www\.[^\s\n\r]+)`, tried in the source's order. -/
def webValue (cs : List Char) : Option (List Char) :=
  match httpValue cs with
  | some v => some v
  | none => wwwValue cs

/-- Match attempt, anchored at the start of `cs`, of the source's website
regex `(?:Website|Site web)\s*[:\-]\s*(https?://[^\s\n\r]+|www\.[^\s\n\r]+)`;
returns the capture group. -/
def websitePatAt (cs : List Char) : Option (List Char) :=
  siteLabel cs >>= afterSep >>= webValue

/-- Embedding of `re.search`: try the anchored match attempt `pat` at every
position of the text, left to right, and return the first capture. -/
def searchAt (pat : List Char → Option (List Char)) : List Char → Option (List Char)
  | [] => pat []
  | c :: rest =>
    match pat (c :: rest) with
    | some v => some v
    | none => searchAt pat rest

/-- Embedding of the inner helper `find_one` of `extract_from_detail_page`:
try the patterns in order; on the first search hit return the stripped capture
group, and return `""` when no pattern matches anywhere. -/
def find_one (pats : List (List Char → Option (List Char))) (text : List Char) : String :=
  match pats with
  | [] => ""
  | p :: ps =>
    match searchAt p text with
    | some v => String.mk (pyStrip v)
    | none => find_one ps text

/-- The phone field of `extract_from_detail_page`: the two phone regexes in
the source's priority order. -/
def extract_phone (text : String) : String :=
  find_one [phonePat1At, phonePat2At] text.data

/-- The email field of `extract_from_detail_page`: the single email regex. -/
def extract_email (text : String) : String :=
  find_one [emailPatAt] text.data

/-- The website field of `extract_from_detail_page`: the single website
regex. -/
def extract_website (text : String) : String :=
  find_one [websitePatAt] text.data

/-- A rendered detail page as the extractor sees it: the visible body text,
the three heading selectors `h1`, `h2`, `title` (where `none` models
`page.inner_text(sel)` raising, which the source swallows), and the final
URL. -/
structure Page where
  body : String
  h1 : Option String
  h2 : Option String
  title : Option String
  url : String
deriving DecidableEq

/-- One step of the name loop: `t = page.inner_text(sel).strip()` followed by
`if t and len(t) < 200`. -/
def headingCandidate (o : Option String) : Option String :=
  o.bind fun s =>
    let t := pyStripStr s
    if t ≠ "" ∧ t.length < 200 then some t else none

/-- The `for sel in ["h1", "h2", "title"]` loop of the source: first
qualifying candidate wins, `""` when none qualifies. -/
def pickName : List (Option String) → String
  | [] => ""
  | o :: rest =>
    match headingCandidate o with
    | some t => t
    | none => pickName rest

/-- The company-name field of `extract_from_detail_page`. -/
def extract_name (p : Page) : String :=
  pickName [p.h1, p.h2, p.title]

/-- The dict returned by `extract_from_detail_page`. -/
structure ContactData where
  name : String
  phone : String
  email : String
  website : String
  url : String
deriving DecidableEq

/-- Embedding of `extract_from_detail_page`. -/
def extract_from_detail_page (p : Page) : ContactData :=
  { name := extract_name p
    phone := extract_phone p.body
    email := extract_email p.body
    website := extract_website p.body
    url := p.url }

/-- Outcome of `scrape_one` for one identifier: either the extracted data or
an exception, modelled by the string `str(e)` that `main` records. -/
inductive ScrapeResult where
  | ok : ContactData → ScrapeResult
  | err : String → ScrapeResult
deriving DecidableEq

/-- The message `str(e)` of a failed scrape, `""` on success. -/
def errText : ScrapeResult → String
  | ScrapeResult.ok _ => ""
  | ScrapeResult.err m => m

/-- Whether a scrape outcome is an exception. -/
def isErrRes : ScrapeResult → Bool
  | ScrapeResult.ok _ => false
  | ScrapeResult.err _ => true

/-- One output row of `main`.  The source builds rows as Python dicts:
successful rows are `{"enterprise_number": n, **data}` — without an `error`
key — while failed rows carry `error` with empty contact fields.  The
optional `error` field records that key's presence. -/
structure Row where
  enterprise_number : String
  name : String
  phone : String
  email : String
  website : String
  url : String
  error : Option String
deriving DecidableEq

/-- Row appended on a successful scrape: `{"enterprise_number": n, **data}`. -/
def successRow (n : String) (d : ContactData) : Row :=
  ⟨n, d.name, d.phone, d.email, d.website, d.url, none⟩

/-- Row appended when `scrape_one` raises: all contact fields empty and
`error` set to `str(e)`. -/
def errorRow (n : String) (msg : String) : Row :=
  ⟨n, "", "", "", "", "", some msg⟩

/-- The error cell a row serializes to: the message when the `error` key is
present, the empty string otherwise. -/
def rowError (r : Row) : String :=
  r.error.getD ""

/-- The try/except body of the batch loop for one identifier. -/
def scrapeRow (scrape : String → ScrapeResult) (n : String) : Row :=
  match scrape n with
  | ScrapeResult.ok d => successRow n d
  | ScrapeResult.err m => errorRow n m

/-- The batch loop of `main`: one row per identifier, in order, failures
caught per record. -/
def runBatch (scrape : String → ScrapeResult) (nums : List String) : List Row :=
  nums.map (scrapeRow scrape)

/-- The list comprehension `nums = [normalize_kbo(n) for n in nums]`: all
identifiers are normalized up front, and the first failure aborts with its
`ValueError` before anything else runs. -/
def normalizeAll : List String → Except String (List String)
  | [] => Except.ok []
  | n :: rest =>
    match normalize_kbo n with
    | Except.error e => Except.error e
    | Except.ok d => (normalizeAll rest).map (fun ds => d :: ds)

/-- The core of `main`: normalize every identifier up front, then — only if
all of them are valid — run the batch loop against the scraping oracle. -/
def run_main (scrape : String → ScrapeResult) (nums : List String) : Except String (List Row) :=
  (normalizeAll nums).map (runBatch scrape)

/-- Concrete scraping oracle used by witnesses: one identifier of the batch
raises, the others succeed. -/
def wScrape : String → ScrapeResult :=
  fun n =>
    if n = "0000000002" then ScrapeResult.err "navigation failed"
    else ScrapeResult.ok ⟨"ACME SA", "+32 2 111 11 11", "info@acme.be", "www.acme.be", "https://kbo/detail"⟩

/-- A string is single-line and trimmed: it contains no newline or carriage
return, and stripping it is the identity. -/
def singleLineTrimmed (r : String) : Prop :=
  (∀ c ∈ r.data, ¬(c = '\n' ∨ c = '\r')) ∧ pyStripStr r = r

/-! ### Helper lemmas about stripping and scanning -/

theorem dropWhile_dropWhile (p : Char → Bool) (l : List Char) :
    (l.dropWhile p).dropWhile p = l.dropWhile p := by
  induction l with
  | nil => rfl
  | cons c t ih =>
    by_cases h : p c
    · simp [List.dropWhile_cons, h, ih]
    · simp [List.dropWhile_cons, h]

theorem dropWhile_eq_self_of (p : Char → Bool) (l : List Char) (h : ∀ c ∈ l, p c = false) :
    l.dropWhile p = l := by
  cases l with
  | nil => rfl
  | cons c t => simp [List.dropWhile_cons, h c (by simp)]

theorem head_not_of_dropWhile (p : Char → Bool) (c : Char) (t : List Char)
    (h : (c :: t).dropWhile p = c :: t) : p c = false := by
  by_cases hb : p c
  · exfalso
    rw [List.dropWhile_cons, if_pos hb] at h
    have h1 : (t.dropWhile p).length ≤ t.length := (List.dropWhile_sublist p).length_le
    rw [h] at h1
    simp at h1
  · exact Bool.eq_false_iff.mpr hb

theorem dropTrailing_fix (l : List Char) (h : l.dropWhile isSpacePy = l) :
    (dropTrailing l).dropWhile isSpacePy = dropTrailing l := by
  cases l with
  | nil => rfl
  | cons c t =>
    have hc := head_not_of_dropWhile isSpacePy c t h
    unfold dropTrailing
    rw [List.reverse_cons, List.dropWhile_append]
    by_cases he : (t.reverse.dropWhile isSpacePy).isEmpty
    · rw [if_pos he]
      simp [List.dropWhile_cons, hc]
    · rw [if_neg he]
      rw [List.reverse_append]
      simp [List.dropWhile_cons, hc]

theorem dropTrailing_idem (l : List Char) : dropTrailing (dropTrailing l) = dropTrailing l := by
  unfold dropTrailing
  rw [List.reverse_reverse, dropWhile_dropWhile]

theorem pyStrip_idem (l : List Char) : pyStrip (pyStrip l) = pyStrip l := by
  have h1 : (pyStrip l).dropWhile isSpacePy = pyStrip l :=
    dropTrailing_fix _ (dropWhile_dropWhile isSpacePy l)
  show dropTrailing ((pyStrip l).dropWhile isSpacePy) = pyStrip l
  rw [h1]
  exact dropTrailing_idem _

theorem pyStrip_eq_self (l : List Char) (h : ∀ c ∈ l, isSpacePy c = false) : pyStrip l = l := by
  unfold pyStrip dropTrailing
  rw [dropWhile_eq_self_of _ _ h,
      dropWhile_eq_self_of _ _ (fun c hc => h c (List.mem_reverse.mp hc)),
      List.reverse_reverse]

theorem mem_of_mem_dropWhile (p : Char → Bool) (l : List Char) (c : Char)
    (h : c ∈ l.dropWhile p) : c ∈ l := by
  induction l with
  | nil => simp at h
  | cons a t ih =>
    rw [List.dropWhile_cons] at h
    by_cases ha : p a
    · rw [if_pos ha] at h
      exact List.mem_cons_of_mem a (ih h)
    · rw [if_neg ha] at h
      exact h

theorem mem_pyStrip (l : List Char) (c : Char) (h : c ∈ pyStrip l) : c ∈ l := by
  unfold pyStrip dropTrailing at h
  have h1 := mem_of_mem_dropWhile _ _ _ (List.mem_reverse.mp h)
  exact mem_of_mem_dropWhile _ _ _ (List.mem_reverse.mp h1)

theorem mem_takeWhile_sat (p : Char → Bool) (l : List Char) (c : Char)
    (h : c ∈ l.takeWhile p) : p c = true := by
  induction l with
  | nil => simp at h
  | cons a t ih =>
    rw [List.takeWhile_cons] at h
    by_cases ha : p a
    · rw [if_pos ha] at h
      rcases List.mem_cons.mp h with h1 | h2
      · subst h1; exact ha
      · exact ih h2
    · rw [if_neg ha] at h
      simp at h

theorem searchAt_some (pat : List Char → Option (List Char)) (cs : List Char) (v : List Char)
    (h : searchAt pat cs = some v) :
    ∃ i, pat (cs.drop i) = some v ∧ ∀ j < i, pat (cs.drop j) = none := by
  induction cs with
  | nil =>
    refine ⟨0, by simpa [searchAt] using h, by intro j hj; omega⟩
  | cons c rest ih =>
    unfold searchAt at h
    cases hp : pat (c :: rest) with
    | some w =>
      rw [hp] at h
      simp only [Option.some.injEq] at h
      subst h
      exact ⟨0, by simpa using hp, by intro j hj; omega⟩
    | none =>
      rw [hp] at h
      obtain ⟨i, h1, h2⟩ := ih h
      refine ⟨i + 1, by simpa using h1, ?_⟩
      intro j hj
      cases j with
      | zero => simpa using hp
      | succ k => simpa using h2 k (by omega)

theorem searchAt_none (pat : List Char → Option (List Char)) (cs : List Char)
    (h : searchAt pat cs = none) : ∀ i, pat (cs.drop i) = none := by
  induction cs with
  | nil =>
    intro i
    rw [List.drop_nil]
    simpa [searchAt] using h
  | cons c rest ih =>
    intro i
    unfold searchAt at h
    cases hp : pat (c :: rest) with
    | some w => rw [hp] at h; simp at h
    | none =>
      rw [hp] at h
      cases i with
      | zero => simpa using hp
      | succ k => simpa using ih h k

theorem searchAt_none_of (pat : List Char → Option (List Char)) (cs : List Char)
    (h : ∀ i, pat (cs.drop i) = none) : searchAt pat cs = none := by
  induction cs with
  | nil => simpa [searchAt] using h 0
  | cons c rest ih =>
    unfold searchAt
    rw [show pat (c :: rest) = none from by simpa using h 0]
    exact ih (fun i => by simpa using h (i + 1))

theorem find_one_two (p1 p2 : List Char → Option (List Char)) (cs : List Char) :
    (searchAt p1 cs = none ∧ searchAt p2 cs = none ∧ find_one [p1, p2] cs = "") ∨
    (∃ v, searchAt p1 cs = some v ∧ find_one [p1, p2] cs = String.mk (pyStrip v)) ∨
    (searchAt p1 cs = none ∧
      ∃ v, searchAt p2 cs = some v ∧ find_one [p1, p2] cs = String.mk (pyStrip v)) := by
  cases h1 : searchAt p1 cs with
  | some v => exact Or.inr (Or.inl ⟨v, rfl, by simp [find_one, h1]⟩)
  | none =>
    cases h2 : searchAt p2 cs with
    | some v => exact Or.inr (Or.inr ⟨rfl, v, rfl, by simp [find_one, h1, h2]⟩)
    | none => exact Or.inl ⟨rfl, rfl, by simp [find_one, h1, h2]⟩

theorem find_one_one (p : List Char → Option (List Char)) (cs : List Char) :
    (searchAt p cs = none ∧ find_one [p] cs = "") ∨
    (∃ v, searchAt p cs = some v ∧ find_one [p] cs = String.mk (pyStrip v)) := by
  cases h1 : searchAt p cs with
  | some v => exact Or.inr ⟨v, rfl, by simp [find_one, h1]⟩
  | none => exact Or.inl ⟨rfl, by simp [find_one, h1]⟩

theorem find_one_no_match (pats : List (List Char → Option (List Char))) (cs : List Char)
    (h : ∀ pt ∈ pats, ∀ i, pt (cs.drop i) = none) : find_one pats cs = "" := by
  induction pats with
  | nil => rfl
  | cons p ps ih =>
    unfold find_one
    rw [searchAt_none_of p cs (h p (by simp))]
    exact ih (fun pt hpt => h pt (List.mem_cons_of_mem p hpt))

/-! ### Normalizer lemmas -/

theorem kboPadded_digits (n : String) : ∀ c ∈ kboPadded n, isPyDigit c = true := by
  intro c hc
  unfold kboPadded at hc
  by_cases h9 : (kboDigits n).length = 9
  · rw [if_pos h9] at hc
    rcases List.mem_cons.mp hc with h | h
    · subst h; decide
    · exact (List.mem_filter.mp h).2
  · rw [if_neg h9] at hc
    exact (List.mem_filter.mp hc).2

theorem normalize_ok_iff (n r : String) :
    normalize_kbo n = Except.ok r ↔
      (kboPadded n).length = 10 ∧ r = String.mk (kboPadded n) := by
  unfold normalize_kbo
  by_cases h : (kboPadded n).length = 10
  · rw [if_pos h]
    constructor
    · intro he
      simp only [Except.ok.injEq] at he
      exact ⟨h, he.symm⟩
    · rintro ⟨-, rfl⟩
      rfl
  · rw [if_neg h]
    constructor
    · intro he; exact absurd he (by simp)
    · rintro ⟨h10, -⟩; exact absurd h10 h

/-! ### Claim C1 — identifier normalization -/

/-- Claim C1, counterexample. The normalizer keeps every character matched by
the regex digit class `\d`, which covers all Unicode decimal digits: on an
input of ten Arabic-Indic digits it succeeds and returns them unchanged, so
the returned canonical string does not consist of ASCII digits. -/
theorem c1_counterexample :
    normalize_kbo "٠١٢٣٤٥٦٧٨٩" = Except.ok "٠١٢٣٤٥٦٧٨٩" ∧
    ("٠١٢٣٤٥٦٧٨٩".data.all Char.isDigit) = false :=
  ⟨rfl, rfl⟩

/-- Claim C1, amended: the normalizer keeps exactly the characters of the
regex digit class (`isPyDigit`); if exactly 9 digits remain it prepends `0`;
if the digit count is neither 9 nor 10 it fails with an error carrying the
original input; and every successful result is a string of exactly 10
characters of the digit class (ASCII digits whenever the input is ASCII). -/
theorem c1_normalize_digits (s : String) :
    ((kboDigits s).length = 10 →
      normalize_kbo s = Except.ok (String.mk (kboDigits s))) ∧
    ((kboDigits s).length = 9 →
      normalize_kbo s = Except.ok (String.mk ('0' :: kboDigits s))) ∧
    ((kboDigits s).length ≠ 9 → (kboDigits s).length ≠ 10 →
      normalize_kbo s = Except.error ("Invalid Belgian enterprise number: " ++ s)) ∧
    (∀ r, normalize_kbo s = Except.ok r →
      r.length = 10 ∧ ∀ c ∈ r.data, isPyDigit c = true) := by
  refine ⟨?_, ?_, ?_, ?_⟩
  · intro h10
    have hp : kboPadded s = kboDigits s := by
      unfold kboPadded
      rw [if_neg (by omega)]
    unfold normalize_kbo
    rw [hp, if_pos h10]
  · intro h9
    have hp : kboPadded s = '0' :: kboDigits s := by
      unfold kboPadded
      rw [if_pos h9]
    unfold normalize_kbo
    rw [hp, if_pos (by simp [h9])]
  · intro h9 h10
    have hp : kboPadded s = kboDigits s := by
      unfold kboPadded
      rw [if_neg h9]
    unfold normalize_kbo
    rw [hp, if_neg h10]
  · intro r hr
    obtain ⟨hlen, hmk⟩ := (normalize_ok_iff s r).mp hr
    subst hmk
    exact ⟨hlen, kboPadded_digits s⟩

/-- Claim C1, witness: on `"123456789"` the cleaned input has exactly 9 digits
and normalization prepends a zero. -/
theorem c1_witness :
    normalize_kbo "123456789" = Except.ok (String.mk ('0' :: kboDigits "123456789")) :=
  (c1_normalize_digits "123456789").2.1 (by decide)

/-! ### Claim C6 — idempotence of the normalizer -/

/-- Claim C6: the normalizer is idempotent — whenever normalization succeeds,
normalizing the result returns it unchanged — and in particular
`normalize("0123456789") = "0123456789"`. -/
theorem c6_idempotent :
    (∀ s r : String, normalize_kbo s = Except.ok r → normalize_kbo r = Except.ok r) ∧
    normalize_kbo "0123456789" = Except.ok "0123456789" := by
  constructor
  · intro s r h
    obtain ⟨hlen, hmk⟩ := (normalize_ok_iff s r).mp h
    have hdata : r.data = kboPadded s := by rw [hmk]
    have hdig : ∀ c ∈ r.data, isPyDigit c = true := by
      rw [hdata]; exact kboPadded_digits s
    have hd : kboDigits r = r.data := by
      unfold kboDigits
      exact List.filter_eq_self.mpr hdig
    have hlen10 : (kboDigits r).length = 10 := by
      rw [hd, hdata]; exact hlen
    have hp : kboPadded r = r.data := by
      unfold kboPadded
      rw [if_neg (by omega), hd]
    rw [normalize_ok_iff]
    refine ⟨by rw [hp, hdata]; exact hlen, ?_⟩
    rw [hp]
  · rfl

/-- Claim C6, witness: idempotence applied to the already-canonical
`"0123456789"`. -/
theorem c6_witness : normalize_kbo "0123456789" = Except.ok "0123456789" :=
  c6_idempotent.1 "0123456789" "0123456789" (by rfl)

/-! ### Character-class facts and capture-shape lemmas -/

theorem spacePy_toLowerPy (c : Char) (h : isSpacePy c = true) : toLowerPy c = c := by
  unfold isSpacePy at h
  simp only [Bool.or_eq_true, decide_eq_true_eq] at h
  have h7 : c = ' ' ∨ c = '\t' ∨ c = '\n' ∨ c = '\r' ∨ c = '\x0b' ∨ c = '\x0c' ∨ c = '\xa0' := by
    tauto
  rcases h7 with h | h | h | h | h | h | h <;> subst h <;> decide

theorem nonspace_of_mapLower (a lit : List Char) (hm : a.map toLowerPy = lit)
    (hlit : ∀ x ∈ lit, isSpacePy x = false) : ∀ c ∈ a, isSpacePy c = false := by
  intro c hc
  have hx : toLowerPy c ∈ lit := by
    rw [← hm]
    exact List.mem_map_of_mem _ hc
  by_cases hs : isSpacePy c
  · rw [spacePy_toLowerPy c hs] at hx
    rw [hlit c hx] at hs
    cases hs
  · exact Bool.eq_false_iff.mpr hs

theorem phoneStart_notNL (c : Char) (h : isPhoneStart c = true) : notNL c = true := by
  unfold notNL
  by_cases h1 : c = '\n'
  · subst h1; exact absurd h (by decide)
  · by_cases h2 : c = '\r'
    · subst h2; exact absurd h (by decide)
    · simp [h1, h2]

theorem nonspace_notNL (c : Char) (h : isSpacePy c = false) : notNL c = true := by
  unfold notNL
  by_cases h1 : c = '\n'
  · subst h1; exact absurd h (by decide)
  · by_cases h2 : c = '\r'
    · subst h2; exact absurd h (by decide)
    · simp [h1, h2]

theorem phoneValue_inv (cs v : List Char) (h : phoneValue cs = some v) :
    ∀ c ∈ v, notNL c = true := by
  cases cs with
  | nil => exact absurd h (by simp [phoneValue])
  | cons c0 rest =>
    simp only [phoneValue] at h
    split at h
    next hs =>
      simp only [Option.some.injEq] at h
      subst h
      intro c hc
      rcases List.mem_cons.mp hc with h1 | h2
      · subst h1; exact phoneStart_notNL _ hs
      · exact mem_takeWhile_sat notNL rest c h2
    next => cases h

theorem bind_some_inv {α β : Type} (o : Option α) (g : α → Option β) (v : β)
    (h : o >>= g = some v) : ∃ b, o = some b ∧ g b = some v := by
  cases o with
  | none => exact absurd h (by simp)
  | some a => exact ⟨a, rfl, h⟩

theorem phonePat1At_inv (cs v : List Char) (h : phonePat1At cs = some v) :
    ∀ c ∈ v, notNL c = true := by
  unfold phonePat1At at h
  cases h1 : telLabel cs >>= afterSep >>= phoneValue with
  | some w =>
    rw [h1] at h
    simp only [Option.some.injEq] at h
    subst h
    obtain ⟨r2, -, hv⟩ := bind_some_inv _ _ _ h1
    exact phoneValue_inv r2 w hv
  | none =>
    rw [h1] at h
    obtain ⟨r2, -, hv⟩ := bind_some_inv _ _ _ h
    exact phoneValue_inv r2 v hv

theorem phonePat2At_inv (cs v : List Char) (h : phonePat2At cs = some v) :
    ∀ c ∈ v, notNL c = true := by
  unfold phonePat2At at h
  obtain ⟨r2, -, hv⟩ := bind_some_inv _ _ _ h
  exact phoneValue_inv r2 v hv

theorem emailValue_inv (cs v : List Char) (h : emailValue cs = some v) :
    (∀ c ∈ v, isSpacePy c = false) ∧ '@' ∈ v := by
  simp only [emailValue] at h
  split at h
  next hc =>
    simp only [Option.some.injEq] at h
    subst h
    constructor
    · intro c hcm
      have := mem_takeWhile_sat _ _ _ hcm
      simpa using this
    · have h1 : '@' ∈ ((cs.takeWhile (fun c => !isSpacePy c)).drop 1).dropLast :=
        List.mem_of_elem_eq_true hc
      exact (List.drop_sublist 1 _).subset ((List.dropLast_sublist _).subset h1)
  next => cases h

theorem emailPatAt_inv (cs v : List Char) (h : emailPatAt cs = some v) :
    (∀ c ∈ v, isSpacePy c = false) ∧ '@' ∈ v := by
  unfold emailPatAt at h
  obtain ⟨r2, -, hv⟩ := bind_some_inv _ _ _ h
  exact emailValue_inv r2 v hv

theorem matchLitCI_spec (lit : List Char) :
    ∀ cs a r, matchLitCI lit cs = some (a, r) → a.map toLowerPy = lit ∧ cs = a ++ r := by
  induction lit with
  | nil =>
    intro cs a r h
    unfold matchLitCI at h
    simp only [Option.some.injEq, Prod.mk.injEq] at h
    obtain ⟨h1, h2⟩ := h
    subst h1; subst h2
    exact ⟨rfl, rfl⟩
  | cons l ls ih =>
    intro cs a r h
    cases cs with
    | nil => exact absurd h (by simp [matchLitCI])
    | cons c cs' =>
      unfold matchLitCI at h
      by_cases hl : toLowerPy c = l
      · rw [if_pos hl] at h
        cases hm : matchLitCI ls cs' with
        | none => rw [hm] at h; exact absurd h (by simp)
        | some p =>
          rw [hm] at h
          simp only [Option.map_some', Option.some.injEq, Prod.mk.injEq] at h
          obtain ⟨ha, hr⟩ := h
          obtain ⟨h1, h2⟩ := ih cs' p.1 p.2 (by rw [hm])
          subst ha; subst hr
          constructor
          · simp only [List.map_cons, h1, hl]
          · rw [List.cons_append, ← h2]
      · rw [if_neg hl] at h
        exact absurd h (by simp)

theorem httpsOpt_shape (r : List Char) :
    (httpsOpt r).1 = [] ∨ ∃ c, (httpsOpt r).1 = [c] ∧ toLowerPy c = 's' := by
  cases r with
  | nil => exact Or.inl rfl
  | cons c t =>
    simp only [httpsOpt]
    split
    next hc => exact Or.inr ⟨c, rfl, hc⟩
    next => exact Or.inl rfl

theorem run_nonspace (r : List Char) :
    ∀ c ∈ r.takeWhile (fun c => !isSpacePy c), isSpacePy c = false := by
  intro c hc
  have := mem_takeWhile_sat _ _ _ hc
  simpa using this

theorem httpValue_inv (cs v : List Char) (h : httpValue cs = some v) :
    (∀ c ∈ v, isSpacePy c = false) ∧
    (List.map toLowerPy (v.take 7) = "http://".data ∨
     List.map toLowerPy (v.take 8) = "https://".data) := by
  unfold httpValue at h
  cases h4 : matchLitCI "http".data cs with
  | none => rw [h4] at h; cases h
  | some p =>
    obtain ⟨a, r1⟩ := p
    rw [h4] at h
    dsimp only at h
    cases h7 : matchLitCI "://".data (httpsOpt r1).2 with
    | none => rw [h7] at h; cases h
    | some q =>
      obtain ⟨d, r3⟩ := q
      rw [h7] at h
      dsimp only at h
      split at h
      next => cases h
      next =>
        simp only [Option.some.injEq] at h
        subst h
        obtain ⟨hmapa, -⟩ := matchLitCI_spec _ _ _ _ h4
        obtain ⟨hmapd, -⟩ := matchLitCI_spec _ _ _ _ h7
        have ha4 : a.length = 4 := by
          have hlm := congrArg List.length hmapa
          simpa using hlm
        have hd3 : d.length = 3 := by
          have hlm := congrArg List.length hmapd
          simpa using hlm
        have hansp : ∀ c ∈ a, isSpacePy c = false :=
          nonspace_of_mapLower a "http".data hmapa (by decide)
        have hdnsp : ∀ c ∈ d, isSpacePy c = false :=
          nonspace_of_mapLower d "://".data hmapd (by decide)
        rcases httpsOpt_shape r1 with hu | ⟨c0, hu, hc0⟩
        · rw [hu]
          constructor
          · intro c hc
            simp only [List.append_nil, List.append_assoc, List.mem_append] at hc
            rcases hc with hc | hc | hc
            · exact hansp c hc
            · exact hdnsp c hc
            · exact run_nonspace r3 c hc
          · refine Or.inl ?_
            simp only [List.append_nil]
            rw [List.take_left' (by rw [List.length_append, ha4, hd3]),
              List.map_append, hmapa, hmapd]
            rfl
        · rw [hu]
          have hc0nsp : ∀ c ∈ [c0], isSpacePy c = false :=
            nonspace_of_mapLower [c0] ['s'] (by simp [hc0]) (by decide)
          constructor
          · intro c hc
            simp only [List.append_assoc, List.mem_append] at hc
            rcases hc with hc | hc | hc | hc
            · exact hansp c hc
            · exact hc0nsp c hc
            · exact hdnsp c hc
            · exact run_nonspace r3 c hc
          · refine Or.inr ?_
            rw [List.take_left' (by simp [ha4, hd3]),
              List.map_append, List.map_append, hmapa, hmapd]
            simp [hc0]

theorem wwwValue_inv (cs v : List Char) (h : wwwValue cs = some v) :
    (∀ c ∈ v, isSpacePy c = false) ∧
    List.map toLowerPy (v.take 4) = "www.".data := by
  unfold wwwValue at h
  cases h4 : matchLitCI "www.".data cs with
  | none => rw [h4] at h; cases h
  | some p =>
    obtain ⟨a, r⟩ := p
    rw [h4] at h
    dsimp only at h
    split at h
    next => cases h
    next =>
      simp only [Option.some.injEq] at h
      subst h
      obtain ⟨hmapa, -⟩ := matchLitCI_spec _ _ _ _ h4
      have ha4 : a.length = 4 := by
        have hlm := congrArg List.length hmapa
        simpa using hlm
      constructor
      · intro c hc
        rcases List.mem_append.mp hc with hc | hc
        · exact nonspace_of_mapLower a "www.".data hmapa (by decide) c hc
        · exact run_nonspace r c hc
      · rw [List.take_left' ha4, hmapa]

theorem webValue_inv (cs v : List Char) (h : webValue cs = some v) :
    (∀ c ∈ v, isSpacePy c = false) ∧
    (List.map toLowerPy (v.take 7) = "http://".data ∨
     List.map toLowerPy (v.take 8) = "https://".data ∨
     List.map toLowerPy (v.take 4) = "www.".data) := by
  unfold webValue at h
  cases h1 : httpValue cs with
  | some w =>
    rw [h1] at h
    simp only [Option.some.injEq] at h
    subst h
    obtain ⟨hns, hp⟩ := httpValue_inv cs w h1
    exact ⟨hns, hp.imp id Or.inl⟩
  | none =>
    rw [h1] at h
    obtain ⟨hns, hp⟩ := wwwValue_inv cs v h
    exact ⟨hns, Or.inr (Or.inr hp)⟩

theorem websitePatAt_inv (cs v : List Char) (h : websitePatAt cs = some v) :
    (∀ c ∈ v, isSpacePy c = false) ∧
    (List.map toLowerPy (v.take 7) = "http://".data ∨
     List.map toLowerPy (v.take 8) = "https://".data ∨
     List.map toLowerPy (v.take 4) = "www.".data) := by
  unfold websitePatAt at h
  obtain ⟨r2, -, hv⟩ := bind_some_inv _ _ _ h
  exact webValue_inv r2 v hv

theorem stripped_singleLine (v : List Char) (hnl : ∀ c ∈ v, notNL c = true) :
    singleLineTrimmed (String.mk (pyStrip v)) := by
  constructor
  · intro c hc
    have hcv : c ∈ v := mem_pyStrip v c hc
    have h2 := hnl c hcv
    unfold notNL at h2
    simp only [Bool.not_eq_true', Bool.or_eq_false_iff, decide_eq_false_iff_not] at h2
    tauto
  · show String.mk (pyStrip (pyStrip v)) = String.mk (pyStrip v)
    rw [pyStrip_idem]

theorem singleLineTrimmed_empty : singleLineTrimmed "" := by
  constructor
  · intro c hc
    exact absurd hc (List.not_mem_nil c)
  · rfl

/-! ### Claim C2 — phone extraction -/

/-- Claim C2, counterexample.  The two phone regexes are tried in priority
order over the whole text, not merged into one first-match scan: on a text
whose `Telefoon` label precedes its `Tel` label, the `Telefoon` pattern
matches first positionally (at position 0, with value `"1"`), yet extraction
returns the value of the later `Tel` match. -/
theorem c2_counterexample :
    extract_phone "Telefoon: 1\nTel: 2" = "2" ∧
    phonePat2At ("Telefoon: 1\nTel: 2").data = some ['1'] ∧
    ("2" : String) ≠ "1" :=
  ⟨rfl, rfl, by decide⟩

/-- Claim C2 (amended): phone extraction returns the leftmost match of the
first pattern (label `Tel`/`Téléphone`, separator, value starting in
`[+()\d]` up to end of line); only when that pattern matches nowhere, the
leftmost match of the second pattern (label `Telefoon`); and the empty string
when neither matches.  The spec's concrete example holds. -/
theorem c2_phone_first_match :
    (∀ text : String,
      ((∀ i, phonePat1At (text.data.drop i) = none) ∧
        (∀ i, phonePat2At (text.data.drop i) = none) ∧ extract_phone text = "") ∨
      (∃ i v, phonePat1At (text.data.drop i) = some v ∧
        (∀ j < i, phonePat1At (text.data.drop j) = none) ∧
        extract_phone text = String.mk (pyStrip v)) ∨
      ((∀ i, phonePat1At (text.data.drop i) = none) ∧
        ∃ i v, phonePat2At (text.data.drop i) = some v ∧
          (∀ j < i, phonePat2At (text.data.drop j) = none) ∧
          extract_phone text = String.mk (pyStrip v))) ∧
    extract_phone "Tel: +32 2 123 45 67\nE-mail: info@example.be" = "+32 2 123 45 67" := by
  constructor
  · intro text
    rcases find_one_two phonePat1At phonePat2At text.data with
      ⟨h1, h2, he⟩ | ⟨v, hv, he⟩ | ⟨h1, v, hv, he⟩
    · exact Or.inl ⟨searchAt_none _ _ h1, searchAt_none _ _ h2, he⟩
    · obtain ⟨i, hp, hlt⟩ := searchAt_some _ _ _ hv
      exact Or.inr (Or.inl ⟨i, v, hp, hlt, he⟩)
    · obtain ⟨i, hp, hlt⟩ := searchAt_some _ _ _ hv
      exact Or.inr (Or.inr ⟨searchAt_none _ _ h1, i, v, hp, hlt, he⟩)
  · rfl

/-- Claim C2, witness: the spec's concrete example, through the amended
theorem. -/
theorem c2_witness :
    extract_phone "Tel: +32 2 123 45 67\nE-mail: info@example.be" = "+32 2 123 45 67" :=
  c2_phone_first_match.2

/-! ### Claim C3 — email and website extraction -/

/-- Claim C3, counterexample.  The email capture requires a character on each
side of the `@`, and the website capture requires a character after the
scheme: on `"E-mail: @foo"` the token following the label is `"@foo"`, which
contains `@`, yet extraction returns `""`; on `"Website: http:// down"` the
token following the label is `"http://"`, which starts with `http://`, yet
extraction returns `""`. -/
theorem c3_counterexample :
    extract_email "E-mail: @foo" = "" ∧
    (emailLabel "E-mail: @foo".data).bind afterSep = some "@foo".data ∧
    '@' ∈ "@foo".data ∧
    extract_website "Website: http:// down" = "" ∧
    (siteLabel "Website: http:// down".data).bind afterSep = some "http:// down".data ∧
    ("http:// down".data.takeWhile (fun c => !isSpacePy c)) = "http://".data :=
  ⟨rfl, rfl, by decide, rfl, rfl, rfl⟩

/-- Claim C3 (amended): email extraction returns the leftmost match of the
email pattern — the first whitespace-free token with an interior `@` (at
least one non-whitespace character on each side) following an `E-mail`-like
label — and website extraction the leftmost match of the website pattern —
the first token extending `http://`, `https://` or `www.` by at least one
character following a `Website`/`Site web` label; each field returns the
empty string when its pattern matches nowhere; every non-empty email result
contains `@`, and every non-empty website result starts (case-insensitively)
with `http://`, `https://` or `www.`.  The spec's concrete examples hold. -/
theorem c3_email_website :
    (∀ text : String,
      ((∀ i, emailPatAt (text.data.drop i) = none) ∧ extract_email text = "") ∨
      (∃ i v, emailPatAt (text.data.drop i) = some v ∧
        (∀ j < i, emailPatAt (text.data.drop j) = none) ∧
        extract_email text = String.mk (pyStrip v))) ∧
    (∀ text : String,
      ((∀ i, websitePatAt (text.data.drop i) = none) ∧ extract_website text = "") ∨
      (∃ i v, websitePatAt (text.data.drop i) = some v ∧
        (∀ j < i, websitePatAt (text.data.drop j) = none) ∧
        extract_website text = String.mk (pyStrip v))) ∧
    (∀ text : String, extract_email text ≠ "" → '@' ∈ (extract_email text).data) ∧
    (∀ text : String, extract_website text ≠ "" →
      List.map toLowerPy ((extract_website text).data.take 7) = "http://".data ∨
      List.map toLowerPy ((extract_website text).data.take 8) = "https://".data ∨
      List.map toLowerPy ((extract_website text).data.take 4) = "www.".data) ∧
    extract_email "Tel: +32 2 123 45 67\nE-mail: info@example.be" = "info@example.be" ∧
    extract_website "Website: https://example.be/info" = "https://example.be/info" := by
  refine ⟨?_, ?_, ?_, ?_, rfl, rfl⟩
  · intro text
    rcases find_one_one emailPatAt text.data with ⟨h1, he⟩ | ⟨v, hv, he⟩
    · exact Or.inl ⟨searchAt_none _ _ h1, he⟩
    · obtain ⟨i, hp, hlt⟩ := searchAt_some _ _ _ hv
      exact Or.inr ⟨i, v, hp, hlt, he⟩
  · intro text
    rcases find_one_one websitePatAt text.data with ⟨h1, he⟩ | ⟨v, hv, he⟩
    · exact Or.inl ⟨searchAt_none _ _ h1, he⟩
    · obtain ⟨i, hp, hlt⟩ := searchAt_some _ _ _ hv
      exact Or.inr ⟨i, v, hp, hlt, he⟩
  · intro text hne
    rcases find_one_one emailPatAt text.data with ⟨h1, he⟩ | ⟨v, hv, he⟩
    · exact absurd he hne
    · obtain ⟨i, hp, -⟩ := searchAt_some _ _ _ hv
      obtain ⟨hns, hat⟩ := emailPatAt_inv _ _ hp
      rw [show extract_email text = String.mk (pyStrip v) from he, pyStrip_eq_self v hns]
      exact hat
  · intro text hne
    rcases find_one_one websitePatAt text.data with ⟨h1, he⟩ | ⟨v, hv, he⟩
    · exact absurd he hne
    · obtain ⟨i, hp, -⟩ := searchAt_some _ _ _ hv
      obtain ⟨hns, hpre⟩ := websitePatAt_inv _ _ hp
      rw [show extract_website text = String.mk (pyStrip v) from he, pyStrip_eq_self v hns]
      exact hpre

/-- Claim C3, witness: the non-emptiness hypothesis discharged on the spec's
concrete example text. -/
theorem c3_witness :
    '@' ∈ (extract_email "Tel: +32 2 123 45 67\nE-mail: info@example.be").data :=
  c3_email_website.2.2.1 "Tel: +32 2 123 45 67\nE-mail: info@example.be" (by decide)

/-! ### Claim C4 — extraction never fails -/

/-- Claim C4: extraction is total and fieldwise independent — the record is
exactly the four independent field extractions plus the page URL — a field
whose patterns match nowhere yields the empty string, and on a page whose
text has no recognizable labels and no headings all four fields are empty. -/
theorem c4_extraction_total :
    (∀ p : Page, extract_from_detail_page p =
      { name := extract_name p, phone := extract_phone p.body, email := extract_email p.body,
        website := extract_website p.body, url := p.url }) ∧
    (∀ (pats : List (List Char → Option (List Char))) (cs : List Char),
      (∀ pt ∈ pats, ∀ i, pt (cs.drop i) = none) → find_one pats cs = "") ∧
    extract_from_detail_page ⟨"Hello world\nNothing to see here", none, none, none, "u"⟩ =
      ⟨"", "", "", "", "u"⟩ :=
  ⟨fun _ => rfl, find_one_no_match, rfl⟩

/-- Claim C4, witness: the no-match hypothesis discharged on the empty text
for the phone patterns. -/
theorem c4_witness : find_one [phonePat1At, phonePat2At] "".data = "" :=
  c4_extraction_total.2.1 [phonePat1At, phonePat2At] "".data (by
    intro pt hpt i
    rw [show ("" : String).data = ([] : List Char) from rfl, List.drop_nil]
    rcases List.mem_cons.mp hpt with rfl | hpt'
    · rfl
    · rcases List.mem_singleton.mp hpt' with rfl
      rfl)

/-! ### Claim C10 — extracted values are single-line and trimmed -/

/-- Claim C10: every phone, email or website value produced by extraction
contains no newline or carriage return and is fixed by stripping (no leading
or trailing whitespace): phone captures are confined to one line by `[^\n\r]*`
and email/website captures are whitespace-free tokens, and every capture is
stripped before being returned. -/
theorem c10_values_single_line (text : String) :
    singleLineTrimmed (extract_phone text) ∧ singleLineTrimmed (extract_email text) ∧
    singleLineTrimmed (extract_website text) := by
  refine ⟨?_, ?_, ?_⟩
  · rcases find_one_two phonePat1At phonePat2At text.data with
      ⟨-, -, he⟩ | ⟨v, hv, he⟩ | ⟨-, v, hv, he⟩
    · rw [show extract_phone text = "" from he]
      exact singleLineTrimmed_empty
    · obtain ⟨i, hp, -⟩ := searchAt_some _ _ _ hv
      rw [show extract_phone text = String.mk (pyStrip v) from he]
      exact stripped_singleLine v (phonePat1At_inv _ _ hp)
    · obtain ⟨i, hp, -⟩ := searchAt_some _ _ _ hv
      rw [show extract_phone text = String.mk (pyStrip v) from he]
      exact stripped_singleLine v (phonePat2At_inv _ _ hp)
  · rcases find_one_one emailPatAt text.data with ⟨-, he⟩ | ⟨v, hv, he⟩
    · rw [show extract_email text = "" from he]
      exact singleLineTrimmed_empty
    · obtain ⟨i, hp, -⟩ := searchAt_some _ _ _ hv
      rw [show extract_email text = String.mk (pyStrip v) from he]
      exact stripped_singleLine v
        (fun c hc => nonspace_notNL c ((emailPatAt_inv _ _ hp).1 c hc))
  · rcases find_one_one websitePatAt text.data with ⟨-, he⟩ | ⟨v, hv, he⟩
    · rw [show extract_website text = "" from he]
      exact singleLineTrimmed_empty
    · obtain ⟨i, hp, -⟩ := searchAt_some _ _ _ hv
      rw [show extract_website text = String.mk (pyStrip v) from he]
      exact stripped_singleLine v
        (fun c hc => nonspace_notNL c ((websitePatAt_inv _ _ hp).1 c hc))

/-- Claim C10, witness: the property instantiated on a concrete page text. -/
theorem c10_witness :
    singleLineTrimmed (extract_phone "Tel: 123  \nx") ∧
    singleLineTrimmed (extract_email "Tel: 123  \nx") ∧
    singleLineTrimmed (extract_website "Tel: 123  \nx") :=
  c10_values_single_line "Tel: 123  \nx"

/-! ### Claim C8 — company-name priority -/

/-- Claim C8: the company name is the first qualifying heading candidate — a
candidate qualifies exactly when its selector produced text whose stripped
form is non-empty and shorter than 200 characters — evaluated in the fixed
priority order `h1`, `h2`, `title`, with the empty string when no candidate
qualifies. -/
theorem c8_name_priority (p : Page) :
    (∀ (o : Option String) (t : String), headingCandidate o = some t ↔
      ∃ s, o = some s ∧ t = pyStripStr s ∧ t ≠ "" ∧ t.length < 200) ∧
    (∀ t, headingCandidate p.h1 = some t → extract_name p = t) ∧
    (headingCandidate p.h1 = none →
      ∀ t, headingCandidate p.h2 = some t → extract_name p = t) ∧
    (headingCandidate p.h1 = none → headingCandidate p.h2 = none →
      ∀ t, headingCandidate p.title = some t → extract_name p = t) ∧
    (headingCandidate p.h1 = none → headingCandidate p.h2 = none →
      headingCandidate p.title = none → extract_name p = "") := by
  refine ⟨?_, ?_, ?_, ?_, ?_⟩
  · intro o t
    constructor
    · intro h
      cases o with
      | none => cases h
      | some s =>
        refine ⟨s, rfl, ?_⟩
        simp only [headingCandidate, Option.some_bind] at h
        split at h
        next hc =>
          simp only [Option.some.injEq] at h
          subst h
          exact ⟨rfl, hc.1, hc.2⟩
        next => cases h
    · rintro ⟨s, rfl, rfl, hne, hlen⟩
      simp only [headingCandidate, Option.some_bind]
      rw [if_pos ⟨hne, hlen⟩]
  · intro t h
    simp [extract_name, pickName, h]
  · intro h1 t h
    simp [extract_name, pickName, h1, h]
  · intro h1 h2 t h
    simp [extract_name, pickName, h1, h2, h]
  · intro h1 h2 h3
    simp [extract_name, pickName, h1, h2, h3]

/-- Claim C8, witness: a page whose `h1` selector fails and whose `h2` text
strips to a short non-empty name. -/
theorem c8_witness : extract_name ⟨"", none, some " ACME Corp ", none, "u"⟩ = "ACME Corp" :=
  (c8_name_priority ⟨"", none, some " ACME Corp ", none, "u"⟩).2.2.1 (by rfl) "ACME Corp"
    (by rfl)

/-! ### Batch-loop lemmas -/

theorem rowError_scrapeRow (scrape : String → ScrapeResult) (n : String) :
    rowError (scrapeRow scrape n) = errText (scrape n) := by
  unfold scrapeRow rowError errText
  cases scrape n <;> rfl

theorem enterprise_scrapeRow (scrape : String → ScrapeResult) (n : String) :
    (scrapeRow scrape n).enterprise_number = n := by
  unfold scrapeRow
  cases scrape n <;> rfl

theorem runBatch_ids (scrape : String → ScrapeResult) (nums : List String) :
    (runBatch scrape nums).map Row.enterprise_number = nums := by
  induction nums with
  | nil => rfl
  | cons n rest ih =>
    unfold runBatch at ih ⊢
    simp only [List.map_cons, List.map_map] at ih ⊢
    rw [show Row.enterprise_number (scrapeRow scrape n) = n from enterprise_scrapeRow scrape n]
    rw [ih]

theorem countP_runBatch (scrape : String → ScrapeResult) (nums : List String) :
    (runBatch scrape nums).countP (fun r => rowError r != "") =
      nums.countP (fun n => errText (scrape n) != "") := by
  induction nums with
  | nil => rfl
  | cons n rest ih =>
    unfold runBatch at ih ⊢
    simp only [List.map_cons, List.countP_cons] at ih ⊢
    rw [ih, rowError_scrapeRow]

theorem countP_congr_str (p q : String → Bool) (l : List String)
    (h : ∀ x ∈ l, p x = q x) : l.countP p = l.countP q := by
  induction l with
  | nil => rfl
  | cons a t ih =>
    simp only [List.countP_cons]
    rw [ih (fun x hx => h x (List.mem_cons_of_mem a hx)), h a (by simp)]

/-! ### Claim C5 — one failing scrape in a batch -/

/-- Claim C5: in a batch where exactly one identifier's scrape raises (with a
non-empty exception message, as `str(e)` of a real driver exception is) and
the rest succeed, the run emits exactly one row per identifier, in order and
past the failure; exactly one row carries a non-empty error cell; and every
row with a non-empty error cell has all four contact fields empty. -/
theorem c5_single_failure (scrape : String → ScrapeResult) (nums : List String)
    (h1 : nums.countP (fun n => isErrRes (scrape n)) = 1)
    (h2 : ∀ n ∈ nums, isErrRes (scrape n) = true → errText (scrape n) ≠ "") :
    (runBatch scrape nums).length = nums.length ∧
    (runBatch scrape nums).map Row.enterprise_number = nums ∧
    (runBatch scrape nums).countP (fun r => rowError r != "") = 1 ∧
    ∀ r ∈ runBatch scrape nums, rowError r ≠ "" →
      r.name = "" ∧ r.phone = "" ∧ r.email = "" ∧ r.website = "" := by
  refine ⟨?_, runBatch_ids scrape nums, ?_, ?_⟩
  · unfold runBatch
    exact List.length_map _ _
  · rw [countP_runBatch]
    rw [countP_congr_str _ (fun n => isErrRes (scrape n)) nums ?_]
    · exact h1
    · intro n hn
      cases hs : scrape n with
      | ok d => simp [errText, isErrRes, hs]
      | err m =>
        have hm : m ≠ "" := by
          have := h2 n hn (by rw [hs]; rfl)
          rw [hs] at this
          exact this
        simp [errText, isErrRes, hs, hm]
  · intro r hr hne
    unfold runBatch at hr
    obtain ⟨n, hn, hrn⟩ := List.mem_map.mp hr
    subst hrn
    cases hs : scrape n with
    | ok d =>
      rw [show scrapeRow scrape n = successRow n d from by unfold scrapeRow; rw [hs]] at hne
      exact absurd rfl hne
    | err m =>
      rw [show scrapeRow scrape n = errorRow n m from by unfold scrapeRow; rw [hs]]
      exact ⟨rfl, rfl, rfl, rfl⟩

/-- Claim C5, witness: a three-identifier batch whose middle scrape raises. -/
theorem c5_witness :
    (runBatch wScrape ["0000000001", "0000000002", "0000000003"]).length = 3 ∧
    (runBatch wScrape ["0000000001", "0000000002", "0000000003"]).countP
      (fun r => rowError r != "") = 1 :=
  ⟨(c5_single_failure wScrape ["0000000001", "0000000002", "0000000003"]
      (by decide) (by decide)).1,
   (c5_single_failure wScrape ["0000000001", "0000000002", "0000000003"]
      (by decide) (by decide)).2.2.1⟩

/-! ### Claim C7 — invalid identifier halts the run -/

theorem normalizeAll_error (nums : List String)
    (h : ∃ n ∈ nums, ∃ e, normalize_kbo n = Except.error e) :
    ∃ e, normalizeAll nums = Except.error e := by
  induction nums with
  | nil =>
    obtain ⟨n, hn, -⟩ := h
    exact absurd hn (List.not_mem_nil n)
  | cons n rest ih =>
    cases hn : normalize_kbo n with
    | error e => exact ⟨e, by simp [normalizeAll, hn]⟩
    | ok d =>
      obtain ⟨m, hm, e, he⟩ := h
      rcases List.mem_cons.mp hm with rfl | hm'
      · rw [hn] at he
        cases he
      · obtain ⟨e', he'⟩ := ih ⟨m, hm', e, he⟩
        exact ⟨e', by simp [normalizeAll, hn, he', Except.map]⟩

/-- Claim C7: if any identifier in the input list fails normalization, the
whole run fails with that error before any scraping: the result is the same
error for every scraping oracle, and no row is produced. -/
theorem c7_invalid_halts (nums : List String)
    (h : ∃ n ∈ nums, ∃ e, normalize_kbo n = Except.error e) :
    ∃ e, ∀ scrape : String → ScrapeResult, run_main scrape nums = Except.error e := by
  obtain ⟨e, he⟩ := normalizeAll_error nums h
  exact ⟨e, fun scrape => by simp [run_main, he, Except.map]⟩

/-- Claim C7, witness: a batch containing the malformed identifier `"12345"`
halts with its `ValueError` whatever the scraper would have done. -/
theorem c7_witness :
    ∃ e, ∀ scrape : String → ScrapeResult,
      run_main scrape ["12345", "0123456789"] = Except.error e :=
  c7_invalid_halts ["12345", "0123456789"]
    ⟨"12345", by simp, "Invalid Belgian enterprise number: 12345", by rfl⟩

/-! ### Claim C9 — row fields -/

/-- Claim C9, counterexample.  A successful scrape appends the dict
`{"enterprise_number": n, **data}`, which has no `error` key at all: the
emitted row's `error` field is absent (`none`), not the empty string. -/
theorem c9_counterexample :
    runBatch (fun _ => ScrapeResult.ok
        ⟨"ACME SA", "+32 2 111 11 11", "info@acme.be", "www.acme.be", "https://kbo/detail"⟩)
        ["0123456789"] =
      [{ enterprise_number := "0123456789", name := "ACME SA", phone := "+32 2 111 11 11",
         email := "info@acme.be", website := "www.acme.be", url := "https://kbo/detail",
         error := none }] ∧
    (none : Option String) ≠ some "" :=
  ⟨rfl, by decide⟩

/-- Claim C9 (amended): in every emitted row the contact fields
(name/phone/email/website/url) are present as strings with absence
represented as the empty string; the `error` key, however, is present exactly
on failed rows — where it carries `str(e)` and all four contact fields are
empty — and absent (serialized as an empty cell) on successful rows. -/
theorem c9_error_field (scrape : String → ScrapeResult) (nums : List String) :
    ∀ r ∈ runBatch scrape nums,
      (r.error = none ↔ isErrRes (scrape r.enterprise_number) = false) ∧
      (r.error = none ∨
        (r.name = "" ∧ r.phone = "" ∧ r.email = "" ∧ r.website = "" ∧
          r.error = some (errText (scrape r.enterprise_number)))) := by
  intro r hr
  unfold runBatch at hr
  obtain ⟨n, hn, hrn⟩ := List.mem_map.mp hr
  subst hrn
  cases hs : scrape n with
  | ok d =>
    rw [show scrapeRow scrape n = successRow n d from by unfold scrapeRow; rw [hs]]
    refine ⟨?_, Or.inl rfl⟩
    constructor
    · intro _
      rw [show (successRow n d).enterprise_number = n from rfl, hs]
      rfl
    · intro _
      rfl
  | err m =>
    rw [show scrapeRow scrape n = errorRow n m from by unfold scrapeRow; rw [hs]]
    constructor
    · constructor
      · intro hc
        cases hc
      · intro hc
        rw [show (errorRow n m).enterprise_number = n from rfl, hs] at hc
        cases hc
    · refine Or.inr ⟨rfl, rfl, rfl, rfl, ?_⟩
      rw [show (errorRow n m).enterprise_number = n from rfl, hs]
      rfl

/-- Claim C9, witness: the failed-row case of the amended claim at a concrete
batch. -/
theorem c9_witness :
    (errorRow "0123456789" "boom").error = none ∨
      ((errorRow "0123456789" "boom").name = "" ∧ (errorRow "0123456789" "boom").phone = "" ∧
        (errorRow "0123456789" "boom").email = "" ∧
        (errorRow "0123456789" "boom").website = "" ∧
        (errorRow "0123456789" "boom").error = some "boom") :=
  (c9_error_field (fun _ => ScrapeResult.err "boom") ["0123456789"]
    (errorRow "0123456789" "boom") (by decide)).2
